import Mathlib

/-!
Verification development for the password-strength scorer
(`password_strength_py.py`).  Passwords are shallowly embedded as `List Char`;
the floating-point entropy computation is embedded with exact real arithmetic
(`Real.logb`).  Each top-level definition mirrors one function of the source
file or one inline block of `assess_password`.
-/

namespace PasswordStrength

/-- The fixed symbol block `SYMBOLS` of the source (32 punctuation characters). -/
def SYMBOLS : List Char := "~`!@#$%^&*()-_=+[\x7b]\x7d\\|;:\x27\",<.>/?".toList

/-- The curated common-password set `COMMON_PASSWORDS` of the source. -/
def COMMON_PASSWORDS : List (List Char) :=
  ["123456", "password", "12345678", "qwerty", "abc123", "111111",
   "1234567", "dragon", "123123", "baseball", "iloveyou", "trustno1",
   "letmein", "sunshine", "master", "welcome", "shadow", "ashley",
   "football", "jesus", "michael"].map String.toList

/-- Test for the regex class `[a-z]` (code points 0x61 to 0x7a). -/
def isLowerChar (c : Char) : Bool := decide (97 ≤ c.toNat ∧ c.toNat ≤ 122)

/-- Test for the regex class `[A-Z]` (code points 0x41 to 0x5a). -/
def isUpperChar (c : Char) : Bool := decide (65 ≤ c.toNat ∧ c.toNat ≤ 90)

/-- Test for the regex class `\d` (decimal digits, code points 0x30 to 0x39). -/
def isDigitChar (c : Char) : Bool := decide (48 ≤ c.toNat ∧ c.toNat ≤ 57)

/-- Test for membership in the escaped symbol class. -/
def isSymbolChar (c : Char) : Bool := SYMBOLS.contains c

/-- Whether `re.search(r"[a-z]", password)` succeeds. -/
def hasLower (p : List Char) : Bool := p.any isLowerChar

/-- Whether `re.search(r"[A-Z]", password)` succeeds. -/
def hasUpper (p : List Char) : Bool := p.any isUpperChar

/-- Whether `re.search(r"\d", password)` succeeds. -/
def hasDigit (p : List Char) : Bool := p.any isDigitChar

/-- Whether `re.search` for the escaped symbol class succeeds. -/
def hasSymbol (p : List Char) : Bool := p.any isSymbolChar

/-- Function `charset_size` of the source: 26 + 26 + 10 + 32 for the classes present,
floored at 1. -/
def charset_size (p : List Char) : ℕ :=
  max ((if hasLower p then 26 else 0) + (if hasUpper p then 26 else 0) +
       (if hasDigit p then 10 else 0) + (if hasSymbol p then 32 else 0)) 1

/-- Function `entropy_bits` of the source: `L * log2(csize)` when `csize > 1`, else `0.0`. -/
noncomputable def entropy_bits (p : List Char) : ℝ :=
  if 1 < charset_size p then (p.length : ℝ) * Real.logb 2 (charset_size p) else 0

/-- The inline `base` of `assess_password`:
`min(60, (bits / 60) * 60) if bits > 0 else 0`. -/
noncomputable def base_score (p : List Char) : ℝ :=
  if 0 < entropy_bits p then min 60 (entropy_bits p / 60 * 60) else 0

/-- The inline `classes` counter of `assess_password` (0..4). -/
def classes (p : List Char) : ℕ :=
  (if hasLower p then 1 else 0) + (if hasUpper p then 1 else 0) +
  (if hasDigit p then 1 else 0) + (if hasSymbol p then 1 else 0)

/-- The inline `class_bonus`: `max((classes - 1) * 5, 0)`. -/
def class_bonus (p : List Char) : ℤ := max (((classes p : ℤ) - 1) * 5) 0

/-- The inline `length_bonus` ladder of `assess_password`. -/
def length_bonus (L : ℕ) : ℕ :=
  if 16 ≤ L then 15 else if 12 ≤ L then 10 else if 8 ≤ L then 5 else 0

/-- Generic sliding scan over every 4-character window of a list, used to embed
the regex search of `has_long_repeat` and the window loop of `has_sequence`. -/
def scan4 (f : Char → Char → Char → Char → Bool) : List Char → Bool
  | c1 :: rest =>
    (match rest with
     | c2 :: c3 :: c4 :: _ => f c1 c2 c3 c4
     | _ => false) || scan4 f rest
  | [] => false

/-- One window of the regex `(.)\1{3,}` with threshold 4: four equal characters
whose first is matched by `.`, which does not match a newline. -/
def repeat4 (a b c d : Char) : Bool :=
  !(a == '\n') && (a == b) && (a == c) && (a == d)

/-- Function `has_long_repeat` of the source at its call-site threshold 4:
`re.search(r"(.)\1{3,}", password)` succeeds. -/
def has_long_repeat (p : List Char) : Bool := scan4 repeat4 p

/-- Test for the regex class `[a-z0-9]` (code points 0x61 to 0x7a and
0x30 to 0x39). -/
def isAlnumLower (c : Char) : Bool :=
  decide (97 ≤ c.toNat ∧ c.toNat ≤ 122) || decide (48 ≤ c.toNat ∧ c.toNat ≤ 57)

/-- One window of the `has_sequence` loop: the guard
`re.match(r"^[a-z0-9]+$", sub)` succeeds (Python `$` also matches just before a
single trailing newline, hence the second disjunct), and the consecutive code
differences are all `+1` or all `-1`. -/
def seq4 (a b c d : Char) : Bool :=
  ((isAlnumLower a && isAlnumLower b && isAlnumLower c && isAlnumLower d) ||
   (isAlnumLower a && isAlnumLower b && isAlnumLower c && (d == '\n'))) &&
  ((((b.toNat : Int) - (a.toNat : Int) == 1) &&
    (((c.toNat : Int) - (b.toNat : Int)) == 1) &&
    (((d.toNat : Int) - (c.toNat : Int)) == 1)) ||
   ((((b.toNat : Int) - (a.toNat : Int)) == -1) &&
    (((c.toNat : Int) - (b.toNat : Int)) == -1) &&
    (((d.toNat : Int) - (c.toNat : Int)) == -1)))

/-- Function `has_sequence` of the source at its call-site window length 4: the loop
lowercases the password first and scans every 4-character window. -/
def has_sequence (p : List Char) : Bool := scan4 seq4 (p.map Char.toLower)

/-- The inline check `password.lower() in COMMON_PASSWORDS`. -/
def isCommon (p : List Char) : Bool := COMMON_PASSWORDS.contains (p.map Char.toLower)

/-- The inline `penalty` accumulator of `assess_password`, in source order. -/
def penalty (p : List Char) : ℕ :=
  (if isCommon p then 40 else 0) +
  (if p.length < 8 then (8 - p.length) * 3 else 0) +
  (if has_long_repeat p then 15 else 0) +
  (if has_sequence p then 20 else 0) +
  (if charset_size p ≤ 26 then 10 else 0)

/-- The inline `reasons` list of `assess_password`, appended in source order. -/
def reasons_for_penalty (p : List Char) : List String :=
  (if isCommon p then ["Very common password"] else []) ++
  (if p.length < 8 then ["Too short (recommend >= 12 chars)"] else []) ++
  (if has_long_repeat p then ["Long repeated characters"] else []) ++
  (if has_sequence p then ["Sequence detected (e.g., \x27abcd\x27 or \x271234\x27)"] else []) ++
  (if charset_size p ≤ 26 then ["Limited character variety"] else [])

/-- The inline `suggestions` list of `assess_password`, appended in source order. -/
def suggestions (p : List Char) : List String :=
  (if p.length < 12 then ["Make it longer (12+ characters recommended)."] else []) ++
  (if !hasUpper p then ["Add uppercase letters."] else []) ++
  (if !hasLower p then ["Add lowercase letters."] else []) ++
  (if !hasDigit p then ["Add digits."] else []) ++
  (if !hasSymbol p then ["Add special characters (e.g., !@#$%)."] else []) ++
  (if has_long_repeat p then ["Avoid long repeated characters."] else []) ++
  (if has_sequence p then ["Avoid simple sequences like \x27abcd\x27 or \x271234\x27."] else []) ++
  (if isCommon p then ["Don\x27t use common passwords (e.g., \x27password\x27, \x27123456\x27)."] else [])

/-- The label branch chain of `assess_password`. -/
def labelFor (s : ℤ) : String :=
  if s < 20 then "Very weak"
  else if s < 40 then "Weak"
  else if s < 60 then "Fair"
  else if s < 80 then "Strong"
  else "Very strong"

/-- Python `round(x, 2)` used for the reported `entropy_bits` and
`base_entropy_score` details. -/
noncomputable def round2 (x : ℝ) : ℝ := ((round (x * 100) : ℤ) : ℝ) / 100

/-- The final `score` of `assess_password`:
`max(0, min(100, int(round(base + class_bonus + length_bonus - penalty))))`. -/
noncomputable def score_val (p : List Char) : ℤ :=
  max 0 (min 100 (round (base_score p + (class_bonus p : ℝ) +
    (length_bonus p.length : ℝ) - (penalty p : ℝ))))

/-- The `details` sub-dict of the result. -/
structure Details where
  length : ℕ
  charset_size : ℕ
  entropy_bits : ℝ
  classes : ℕ
  base_entropy_score : ℝ
  class_bonus : ℤ
  length_bonus : ℕ
  penalty : ℕ
  reasons_for_penalty : List String

/-- The result dict of `assess_password`. -/
structure AssessmentResult where
  score : ℤ
  label : String
  suggestions : List String
  details : Details

/-- Function `assess_password` of the source, for inputs that pass the `isinstance`
guard (the guard itself is modelled by `assess_password_checked`). -/
noncomputable def assess_password (p : List Char) : AssessmentResult :=
  { score := score_val p
    label := labelFor (score_val p)
    suggestions := suggestions p
    details :=
      { length := p.length
        charset_size := charset_size p
        entropy_bits := round2 (entropy_bits p)
        classes := classes p
        base_entropy_score := round2 (base_score p)
        class_bonus := class_bonus p
        length_bonus := length_bonus p.length
        penalty := penalty p
        reasons_for_penalty := reasons_for_penalty p } }

/-- A dynamically typed Python value handed to `assess_password`: a string or
some non-string value (modelled by an integer or `None`). -/
inductive PyValue where
  | str : List Char → PyValue
  | intVal : ℤ → PyValue
  | noneVal : PyValue

/-- Function `assess_password` with its `isinstance(password, str)` guard: a non-string
raises `TypeError("password must be a string")` before any processing. -/
noncomputable def assess_password_checked : PyValue → Except String AssessmentResult
  | PyValue.str s => Except.ok (assess_password s)
  | PyValue.intVal _ => Except.error "password must be a string"
  | PyValue.noneVal => Except.error "password must be a string"

/-- A 4-character window scan succeeds exactly when some contiguous
4-character window satisfies the window predicate. -/
theorem scan4_eq_true_iff (f : Char → Char → Char → Char → Bool) :
    ∀ l : List Char, scan4 f l = true ↔
      ∃ pre a b c d t, l = pre ++ a :: b :: c :: d :: t ∧ f a b c d = true := by
  intro l
  induction l with
  | nil =>
      simp only [scan4]
      constructor
      · intro h; cases h
      · rintro ⟨pre, a, b, c, d, t, h, -⟩
        have hlen := congrArg List.length h
        simp at hlen
        omega
  | cons x rest ih =>
      constructor
      · intro h
        simp only [scan4, Bool.or_eq_true] at h
        rcases h with h | h
        · rcases rest with _ | ⟨b, _ | ⟨c, _ | ⟨d, t⟩⟩⟩
          · exact Bool.noConfusion h
          · exact Bool.noConfusion h
          · exact Bool.noConfusion h
          · exact ⟨[], x, b, c, d, t, rfl, h⟩
        · obtain ⟨pre, a, b, c, d, t, hEq, hf⟩ := ih.1 h
          exact ⟨x :: pre, a, b, c, d, t, by rw [hEq, List.cons_append], hf⟩
      · rintro ⟨pre, a, b, c, d, t, hEq, hf⟩
        simp only [scan4, Bool.or_eq_true]
        rcases pre with _ | ⟨y, pre⟩
        · simp only [List.nil_append] at hEq
          injection hEq with h1 h2
          subst h1; subst h2
          exact Or.inl hf
        · simp only [List.cons_append] at hEq
          injection hEq with h1 h2
          exact Or.inr (ih.2 ⟨pre, a, b, c, d, t, h2, hf⟩)

/-- A window match survives appending characters on the right. -/
theorem scan4_append_of_scan4 (f : Char → Char → Char → Char → Bool)
    {p : List Char} (t : List Char) (h : scan4 f p = true) :
    scan4 f (p ++ t) = true := by
  rw [scan4_eq_true_iff] at h ⊢
  obtain ⟨pre, a, b, c, d, t', hEq, hf⟩ := h
  exact ⟨pre, a, b, c, d, t' ++ t, by rw [hEq]; simp, hf⟩

/-- A long repeat survives appending characters. -/
theorem has_long_repeat_append {p : List Char} (t : List Char)
    (h : has_long_repeat p = true) : has_long_repeat (p ++ t) = true :=
  scan4_append_of_scan4 repeat4 t h

/-- A detected sequence survives appending characters. -/
theorem has_sequence_append {p : List Char} (t : List Char)
    (h : has_sequence p = true) : has_sequence (p ++ t) = true := by
  unfold has_sequence at h ⊢
  rw [List.map_append]
  exact scan4_append_of_scan4 seq4 _ h

/-- C1: for every string input, `assess_password` returns a score within
[0, 100]: the explicit clamping after the penalty subtraction bounds the
result regardless of the accumulated bonuses and penalties. -/
theorem C1_score_within_range (p : List Char) :
    0 ≤ (assess_password p).score ∧ (assess_password p).score ≤ 100 := by
  show 0 ≤ score_val p ∧ score_val p ≤ 100
  unfold score_val
  exact ⟨le_max_left _ _, max_le (by norm_num) (min_le_left _ _)⟩

/-- C6: `assess_password` has exactly one error kind, the type/validation
error raised when the input is not a string; every string input produces a
full result and never an error. -/
theorem C6_only_type_error :
    (∀ s : List Char,
      assess_password_checked (PyValue.str s) = Except.ok (assess_password s)) ∧
    (∀ v : PyValue, (∀ s, v ≠ PyValue.str s) →
      assess_password_checked v = Except.error "password must be a string") := by
  constructor
  · intro s; rfl
  · intro v hv
    cases v with
    | str s => exact absurd rfl (hv s)
    | intVal n => rfl
    | noneVal => rfl

/-- Witness for C6 at the concrete non-string input `0` and the concrete
string input `"abc"`. -/
theorem C6_only_type_error_witness :
    assess_password_checked (PyValue.intVal 0) =
      Except.error "password must be a string" ∧
    assess_password_checked (PyValue.str "abc".toList) =
      Except.ok (assess_password "abc".toList) :=
  ⟨C6_only_type_error.2 (PyValue.intVal 0) (fun _ h => PyValue.noConfusion h),
   C6_only_type_error.1 "abc".toList⟩

/-- The run predicate exactly as claim C8 states it: some single character
(any character at all) occurs in an unbroken run of length at least 4. -/
def runSpecAnyChar (p : List Char) : Prop :=
  ∃ pre c t, p = pre ++ c :: c :: c :: c :: t

/-- C8 counterexample: a password of four newline characters has a run of
length 4, yet `has_long_repeat` returns false, because the regex `.` in
`(.)\1{3,}` does not match a newline. -/
theorem C8_counterexample :
    has_long_repeat ['\n', '\n', '\n', '\n'] = false ∧
    runSpecAnyChar ['\n', '\n', '\n', '\n'] :=
  ⟨by decide, ⟨[], '\n', [], rfl⟩⟩

/-- C8 amended: `has_long_repeat` with threshold 4 returns true iff some
character other than newline appears in an unbroken run of length at least 4;
in particular it is true on "aaaa" and false on "aaa". -/
theorem C8_long_repeat_characterization :
    (∀ p : List Char, has_long_repeat p = true ↔
      ∃ pre c t, p = pre ++ c :: c :: c :: c :: t ∧ (c == '\n') = false) ∧
    has_long_repeat "aaaa".toList = true ∧
    has_long_repeat "aaa".toList = false := by
  refine ⟨?_, by decide, by decide⟩
  intro p
  unfold has_long_repeat
  rw [scan4_eq_true_iff]
  constructor
  · rintro ⟨pre, a, b, c, d, t, hEq, hf⟩
    unfold repeat4 at hf
    simp only [Bool.and_eq_true, Bool.not_eq_true', beq_iff_eq, beq_eq_false_iff_ne,
      ne_eq] at hf
    obtain ⟨⟨⟨hn, hab⟩, hac⟩, had⟩ := hf
    subst hab; subst hac; subst had
    refine ⟨pre, a, t, hEq, ?_⟩
    simp only [beq_eq_false_iff_ne, ne_eq]
    exact hn
  · rintro ⟨pre, c, t, hEq, hn⟩
    refine ⟨pre, c, c, c, c, t, hEq, ?_⟩
    unfold repeat4
    simp only [Bool.and_eq_true, Bool.not_eq_true', beq_iff_eq, beq_self_eq_true,
      and_true]
    exact hn

/-- A character accepted by `[a-z0-9]` has a code point between 48 and 122. -/
theorem isAlnumLower_code {c : Char} (h : isAlnumLower c = true) :
    48 ≤ c.toNat ∧ c.toNat ≤ 122 := by
  unfold isAlnumLower at h
  simp only [Bool.or_eq_true, decide_eq_true_eq] at h
  rcases h with h | h <;> omega

/-- The window predicate exactly as claim C7 states it: some contiguous
4-character window of the case-folded password consists entirely of `[a-z0-9]`
characters and its codes step by exactly +1 at every position or by exactly
-1 at every position. -/
def seqSpec (p : List Char) : Prop :=
  ∃ pre a b c d t, p.map Char.toLower = pre ++ a :: b :: c :: d :: t ∧
    isAlnumLower a = true ∧ isAlnumLower b = true ∧ isAlnumLower c = true ∧
    isAlnumLower d = true ∧
    (((b.toNat : ℤ) - (a.toNat : ℤ) = 1 ∧ (c.toNat : ℤ) - (b.toNat : ℤ) = 1 ∧
      (d.toNat : ℤ) - (c.toNat : ℤ) = 1) ∨
     ((b.toNat : ℤ) - (a.toNat : ℤ) = -1 ∧ (c.toNat : ℤ) - (b.toNat : ℤ) = -1 ∧
      (d.toNat : ℤ) - (c.toNat : ℤ) = -1))

/-- C7: `has_sequence` with window length 4 is true iff some all-alnum
4-character window of the case-folded password steps by exactly +1 at every
position or by exactly -1 at every position; and the four documented example
evaluations hold.  (Windows whose fourth character is a trailing newline are
evaluated by the source guard rather than skipped, but they can never form a
monotone run, so the characterization is unaffected.) -/
theorem C7_sequence_characterization :
    (∀ p : List Char, has_sequence p = true ↔ seqSpec p) ∧
    has_sequence "1234".toList = true ∧ has_sequence "1235".toList = false ∧
    has_sequence "dcba".toList = true ∧ has_sequence "ab1!".toList = false := by
  refine ⟨?_, by decide, by decide, by decide, by decide⟩
  intro p
  unfold has_sequence seqSpec
  rw [scan4_eq_true_iff]
  constructor
  · rintro ⟨pre, a, b, c, d, t, hEq, hf⟩
    unfold seq4 at hf
    simp only [Bool.and_eq_true, Bool.or_eq_true, beq_iff_eq] at hf
    obtain ⟨hm, hd⟩ := hf
    rcases hm with ⟨⟨⟨ha, hb⟩, hc⟩, hd4⟩ | ⟨⟨⟨ha, hb⟩, hc3⟩, hdn⟩
    · refine ⟨pre, a, b, c, d, t, hEq, ha, hb, hc, hd4, ?_⟩
      rcases hd with ⟨⟨h1, h2⟩, h3⟩ | ⟨⟨h1, h2⟩, h3⟩
      · exact Or.inl ⟨h1, h2, h3⟩
      · exact Or.inr ⟨h1, h2, h3⟩
    · exfalso
      have hcr := isAlnumLower_code hc3
      subst hdn
      rcases hd with ⟨⟨-, -⟩, h3⟩ | ⟨⟨-, -⟩, h3⟩ <;>
        (rw [show ('\n').toNat = 10 from rfl] at h3; omega)
  · rintro ⟨pre, a, b, c, d, t, hEq, ha, hb, hc, hd4, hd⟩
    refine ⟨pre, a, b, c, d, t, hEq, ?_⟩
    unfold seq4
    simp only [Bool.and_eq_true, Bool.or_eq_true, beq_iff_eq]
    refine ⟨Or.inl ⟨⟨⟨ha, hb⟩, hc⟩, hd4⟩, ?_⟩
    rcases hd with ⟨h1, h2, h3⟩ | ⟨h1, h2, h3⟩
    · exact Or.inl ⟨⟨h1, h2⟩, h3⟩
    · exact Or.inr ⟨⟨h1, h2⟩, h3⟩

/-- No character of the symbol block is a lowercase letter, an uppercase
letter, or a digit. -/
theorem symbol_not_letter_digit :
    ∀ c ∈ SYMBOLS, isLowerChar c = false ∧ isUpperChar c = false ∧
      isDigitChar c = false := by decide

/-- A character passing `isSymbolChar` belongs to the symbol block. -/
theorem mem_SYMBOLS_of_isSymbolChar {c : Char} (h : isSymbolChar c = true) :
    c ∈ SYMBOLS := by
  unfold isSymbolChar at h
  exact List.mem_of_elem_eq_true h

/-- C10: a non-empty password made only of characters of the fixed symbol set
has estimated alphabet size 32 (a single class is present), which exceeds the
26 threshold, so the "Limited character variety" penalty is not applied. -/
theorem C10_symbols_only_no_variety_penalty (p : List Char)
    (h0 : 0 < p.length) (hsym : ∀ c ∈ p, isSymbolChar c = true) :
    charset_size p = 32 ∧ classes p = 1 ∧
    "Limited character variety" ∉ (assess_password p).details.reasons_for_penalty := by
  have hL : hasLower p = false := by
    unfold hasLower
    rw [List.any_eq_false]
    intro c hc h'
    have hf := (symbol_not_letter_digit c (mem_SYMBOLS_of_isSymbolChar (hsym c hc))).1
    rw [hf] at h'
    cases h'
  have hU : hasUpper p = false := by
    unfold hasUpper
    rw [List.any_eq_false]
    intro c hc h'
    have hf := (symbol_not_letter_digit c (mem_SYMBOLS_of_isSymbolChar (hsym c hc))).2.1
    rw [hf] at h'
    cases h'
  have hD : hasDigit p = false := by
    unfold hasDigit
    rw [List.any_eq_false]
    intro c hc h'
    have hf := (symbol_not_letter_digit c (mem_SYMBOLS_of_isSymbolChar (hsym c hc))).2.2
    rw [hf] at h'
    cases h'
  have hS : hasSymbol p = true := by
    cases p with
    | nil => simp at h0
    | cons a q =>
        unfold hasSymbol
        rw [List.any_eq_true]
        exact ⟨a, List.mem_cons_self a q, hsym a (List.mem_cons_self a q)⟩
  have hcs : charset_size p = 32 := by
    unfold charset_size
    rw [hL, hU, hD, hS]
    simp
  have hcl : classes p = 1 := by
    unfold classes
    rw [hL, hU, hD, hS]
    simp
  refine ⟨hcs, hcl, ?_⟩
  show "Limited character variety" ∉ reasons_for_penalty p
  have h26 : ¬ charset_size p ≤ 26 := by rw [hcs]; norm_num
  unfold reasons_for_penalty
  rw [if_neg h26, List.append_nil]
  intro hmem
  simp only [List.mem_append] at hmem
  rcases hmem with ((h | h) | h) | h <;> (revert h; split_ifs <;> simp)

/-- Witness for C10 at the concrete all-symbol password "!@#". -/
theorem C10_symbols_only_witness :
    0 < ("!@#".toList).length ∧ (∀ c ∈ "!@#".toList, isSymbolChar c = true) ∧
    (charset_size "!@#".toList = 32 ∧ classes "!@#".toList = 1 ∧
      "Limited character variety" ∉
        (assess_password "!@#".toList).details.reasons_for_penalty) :=
  ⟨by decide, by decide,
   C10_symbols_only_no_variety_penalty "!@#".toList (by decide) (by decide)⟩

/-- Lower bound for the entropy factor of a 7-character lowercase password:
`2 ^ 65 ≤ 26 ^ 14`, hence `32.5 ≤ 7 * log2 26`. -/
theorem seven_logb26_lower : (32.5 : ℝ) ≤ 7 * Real.logb 2 26 := by
  have h7 : Real.logb 2 ((26:ℝ) ^ (7:ℕ)) = 7 * Real.logb 2 26 := by
    rw [Real.logb_pow]; norm_num
  have hx : (0:ℝ) < (26:ℝ) ^ (7:ℕ) := by positivity
  have key : (2:ℝ) ^ ((32.5:ℝ)) ≤ (26:ℝ) ^ (7:ℕ) := by
    have hsq : ((2:ℝ) ^ ((32.5:ℝ))) ^ (2:ℕ) = (2:ℝ) ^ (65:ℕ) := by
      rw [← Real.rpow_natCast ((2:ℝ) ^ ((32.5:ℝ))) 2,
        ← Real.rpow_mul (by norm_num : (0:ℝ) ≤ 2),
        show ((32.5:ℝ) * ((2:ℕ):ℝ)) = ((65:ℕ):ℝ) by norm_num,
        Real.rpow_natCast]
    refine le_of_pow_le_pow_left₀ (by norm_num : (2:ℕ) ≠ 0) (le_of_lt hx) ?_
    rw [hsq]
    norm_num
  have hlog := (Real.le_logb_iff_rpow_le (by norm_num : (1:ℝ) < 2) hx).2 key
  rw [h7] at hlog
  exact hlog

/-- Upper bound for the same quantity: `26 ^ 7 < 2 ^ 33`, hence
`7 * log2 26 < 33`. -/
theorem seven_logb26_upper : 7 * Real.logb 2 26 < 33 := by
  have h7 : Real.logb 2 ((26:ℝ) ^ (7:ℕ)) = 7 * Real.logb 2 26 := by
    rw [Real.logb_pow]; norm_num
  have hx : (0:ℝ) < (26:ℝ) ^ (7:ℕ) := by positivity
  rw [← h7, Real.logb_lt_iff_lt_rpow (by norm_num : (1:ℝ) < 2) hx,
    show ((33:ℝ)) = ((33:ℕ):ℝ) by norm_num, Real.rpow_natCast]
  norm_num

/-- Bound `2 ^ 60 ≤ 36 ^ 16`, hence `60 ≤ 16 * log2 36`: a 16-character
lowercase-plus-digit password reaches the 60-bit entropy cap. -/
theorem sixteen_logb36_lower : (60:ℝ) ≤ 16 * Real.logb 2 36 := by
  have h16 : Real.logb 2 ((36:ℝ) ^ (16:ℕ)) = 16 * Real.logb 2 36 := by
    rw [Real.logb_pow]; norm_num
  have hx : (0:ℝ) < (36:ℝ) ^ (16:ℕ) := by positivity
  have key : (2:ℝ) ^ ((60:ℝ)) ≤ (36:ℝ) ^ (16:ℕ) := by
    rw [show ((60:ℝ)) = ((60:ℕ):ℝ) by norm_num, Real.rpow_natCast]
    norm_num
  have hlog := (Real.le_logb_iff_rpow_le (by norm_num : (1:ℝ) < 2) hx).2 key
  rw [h16] at hlog
  exact hlog

/-- Entropy of the password "azbycxd": 7 characters over a 26-letter alphabet. -/
theorem entropy_azbycxd : entropy_bits "azbycxd".toList = 7 * Real.logb 2 26 := by
  unfold entropy_bits
  rw [show charset_size "azbycxd".toList = 26 from by decide,
    show ("azbycxd".toList).length = 7 from by decide]
  norm_num

/-- Base score of "azbycxd": the entropy is below the 60-point cap. -/
theorem base_azbycxd : base_score "azbycxd".toList = 7 * Real.logb 2 26 := by
  unfold base_score
  rw [entropy_azbycxd]
  rw [if_pos (by linarith [seven_logb26_lower] : (0:ℝ) < 7 * Real.logb 2 26)]
  rw [div_mul_cancel₀ _ (by norm_num : (60:ℝ) ≠ 0)]
  exact min_eq_right (by linarith [seven_logb26_upper])

/-- The password "azbycxd" scores exactly 20. -/
theorem score_azbycxd : score_val "azbycxd".toList = 20 := by
  unfold score_val
  rw [base_azbycxd,
    show class_bonus "azbycxd".toList = 0 from by decide,
    show penalty "azbycxd".toList = 13 from by decide,
    show ("azbycxd".toList).length = 7 from by decide,
    show length_bonus 7 = 0 from by decide]
  have harg : 7 * Real.logb 2 26 + ((0:ℤ):ℝ) + ((0:ℕ):ℝ) - ((13:ℕ):ℝ)
      = 7 * Real.logb 2 26 - 13 := by push_cast; ring
  rw [harg]
  have hr : round (7 * Real.logb 2 26 - 13) = 20 := by
    rw [round_eq, Int.floor_eq_iff]
    constructor
    · push_cast; linarith [seven_logb26_lower]
    · push_cast; linarith [seven_logb26_upper]
  rw [hr]
  decide

/-- Entropy of the password "a1b2c3d4e5f6g7h8": 16 characters over a
36-character alphabet. -/
theorem entropy_a1b : entropy_bits "a1b2c3d4e5f6g7h8".toList = 16 * Real.logb 2 36 := by
  unfold entropy_bits
  rw [show charset_size "a1b2c3d4e5f6g7h8".toList = 36 from by decide,
    show ("a1b2c3d4e5f6g7h8".toList).length = 16 from by decide]
  norm_num

/-- Base score of "a1b2c3d4e5f6g7h8": the entropy reaches the 60-point cap. -/
theorem base_a1b : base_score "a1b2c3d4e5f6g7h8".toList = 60 := by
  unfold base_score
  rw [entropy_a1b]
  rw [if_pos (by linarith [sixteen_logb36_lower] : (0:ℝ) < 16 * Real.logb 2 36)]
  rw [div_mul_cancel₀ _ (by norm_num : (60:ℝ) ≠ 0)]
  exact min_eq_left (by linarith [sixteen_logb36_lower])

/-- The password "a1b2c3d4e5f6g7h8" scores exactly 80. -/
theorem score_a1b : score_val "a1b2c3d4e5f6g7h8".toList = 80 := by
  unfold score_val
  rw [base_a1b,
    show class_bonus "a1b2c3d4e5f6g7h8".toList = 5 from by decide,
    show penalty "a1b2c3d4e5f6g7h8".toList = 0 from by decide,
    show ("a1b2c3d4e5f6g7h8".toList).length = 16 from by decide,
    show length_bonus 16 = 15 from by decide]
  have harg : (60:ℝ) + ((5:ℤ):ℝ) + ((15:ℕ):ℝ) - ((0:ℕ):ℝ) = ((80:ℤ):ℝ) := by
    push_cast; ring
  rw [harg, round_intCast]
  decide

/-- Entropy of the empty password is exactly zero. -/
theorem entropy_nil : entropy_bits ([] : List Char) = 0 := by
  unfold entropy_bits
  rw [show charset_size ([] : List Char) = 1 from by decide]
  norm_num

/-- Base score of the empty password is zero. -/
theorem base_nil : base_score ([] : List Char) = 0 := by
  unfold base_score
  rw [entropy_nil]
  norm_num

/-- The empty password scores 0 after clamping. -/
theorem score_nil : score_val ([] : List Char) = 0 := by
  unfold score_val
  rw [base_nil,
    show class_bonus ([] : List Char) = 0 from by decide,
    show penalty ([] : List Char) = 34 from by decide,
    show (([] : List Char)).length = 0 from rfl,
    show length_bonus 0 = 0 from by decide]
  have harg : (0:ℝ) + ((0:ℤ):ℝ) + ((0:ℕ):ℝ) - ((34:ℕ):ℝ) = ((-34:ℤ):ℝ) := by
    push_cast; ring
  rw [harg, round_intCast]
  decide

/-- C3 counterexample: the password "azbycxd" scores exactly 20 but is
labelled "Weak", not "Fair" (the code maps [20, 40) to "Weak"). -/
theorem C3_counterexample :
    (assess_password "azbycxd".toList).score = 20 ∧
    ((assess_password "azbycxd".toList).label == "Fair") = false := by
  constructor
  · exact score_azbycxd
  · show (labelFor (score_val "azbycxd".toList) == "Fair") = false
    rw [score_azbycxd]
    decide

/-- C3 amended: a score of exactly 20 is labelled "Weak" (the lower bound is
inclusive for the next band after "Very weak"), and a score of exactly 80 is
labelled "Very strong". -/
theorem C3_score_boundary_labels (p : List Char) :
    ((assess_password p).score = 20 → (assess_password p).label = "Weak") ∧
    ((assess_password p).score = 80 → (assess_password p).label = "Very strong") := by
  constructor
  · intro h
    have h' : score_val p = 20 := h
    show labelFor (score_val p) = "Weak"
    rw [h']
    decide
  · intro h
    have h' : score_val p = 80 := h
    show labelFor (score_val p) = "Very strong"
    rw [h']
    decide

/-- Witness for C3 at the concrete passwords "azbycxd" (score 20) and
"a1b2c3d4e5f6g7h8" (score 80). -/
theorem C3_score_boundary_labels_witness :
    (assess_password "azbycxd".toList).score = 20 ∧
    (assess_password "azbycxd".toList).label = "Weak" ∧
    (assess_password "a1b2c3d4e5f6g7h8".toList).score = 80 ∧
    (assess_password "a1b2c3d4e5f6g7h8".toList).label = "Very strong" :=
  ⟨score_azbycxd, (C3_score_boundary_labels "azbycxd".toList).1 score_azbycxd,
   score_a1b, (C3_score_boundary_labels "a1b2c3d4e5f6g7h8".toList).2 score_a1b⟩

/-- C4 counterexample: the empty password's recorded total penalty is 34
(24 for the missing length plus 10 for limited variety), not 24. -/
theorem C4_counterexample :
    ((assess_password "".toList).details.penalty == 24) = false := by
  show ((penalty "".toList) == 24) = false
  decide

/-- C4 amended: assessing the empty string does not raise; it returns score 0
with the "Too short" reason present, total penalty 34, charset size floored
to 1, and entropy 0.0. -/
theorem C4_empty_string_assessment :
    assess_password_checked (PyValue.str "".toList) =
      Except.ok (assess_password "".toList) ∧
    (assess_password "".toList).score = 0 ∧
    "Too short (recommend >= 12 chars)" ∈
      (assess_password "".toList).details.reasons_for_penalty ∧
    (assess_password "".toList).details.penalty = 34 ∧
    (assess_password "".toList).details.charset_size = 1 ∧
    (assess_password "".toList).details.entropy_bits = 0 := by
  refine ⟨rfl, score_nil, ?_, by decide, by decide, ?_⟩
  · show "Too short (recommend >= 12 chars)" ∈ reasons_for_penalty "".toList
    decide
  · show round2 (entropy_bits ([] : List Char)) = 0
    rw [entropy_nil]
    unfold round2
    norm_num

/-- The label threshold table exactly as the spec states it. -/
def label_of_score (s : ℤ) : String :=
  if s < 20 then "Very weak"
  else if s < 40 then "Weak"
  else if s < 60 then "Fair"
  else if s < 80 then "Strong"
  else "Very strong"

/-- C5: the label is a total function of the score with the documented bands
(below 20 "Very weak", [20,40) "Weak", [40,60) "Fair", [60,80) "Strong",
80 and above "Very strong"), and the returned label is this function applied
to the returned score. -/
theorem C5_label_total_function :
    (∀ s : ℤ,
      (s < 20 → label_of_score s = "Very weak") ∧
      (20 ≤ s → s < 40 → label_of_score s = "Weak") ∧
      (40 ≤ s → s < 60 → label_of_score s = "Fair") ∧
      (60 ≤ s → s < 80 → label_of_score s = "Strong") ∧
      (80 ≤ s → label_of_score s = "Very strong")) ∧
    (∀ p : List Char,
      (assess_password p).label = label_of_score ((assess_password p).score)) := by
  constructor
  · intro s
    refine ⟨?_, ?_, ?_, ?_, ?_⟩ <;>
      (intros; unfold label_of_score; split_ifs <;> first | rfl | omega)
  · intro p
    rfl

/-- Witness for C5 at the concrete score 85 and the concrete password "abc". -/
theorem C5_label_total_function_witness :
    (80:ℤ) ≤ 85 ∧ label_of_score 85 = "Very strong" ∧
    (assess_password "abc".toList).label =
      label_of_score ((assess_password "abc".toList).score) :=
  ⟨by norm_num, (C5_label_total_function.1 85).2.2.2.2 (by norm_num),
   C5_label_total_function.2 "abc".toList⟩

/-- The base-score formula exactly as claim C2 states it. -/
noncomputable def spec_base (p : List Char) : ℝ :=
  if 0 < entropy_bits p then min 60 (entropy_bits p / 60 * 60) else 0

/-- The class bonus exactly as claim C2 states it: max(0, (classCount-1)*5). -/
def spec_class_bonus (p : List Char) : ℤ := max 0 (((classes p : ℤ) - 1) * 5)

/-- The stepped length bonus exactly as claim C2 states it. -/
def spec_length_bonus (p : List Char) : ℤ :=
  if 16 ≤ p.length then 15 else if 12 ≤ p.length then 10
  else if 8 ≤ p.length then 5 else 0

/-- The penalty sum exactly as claim C2 states it. -/
def spec_penalty (p : List Char) : ℤ :=
  (if isCommon p then 40 else 0) +
  (if p.length < 8 then ((8:ℤ) - (p.length:ℤ)) * 3 else 0) +
  (if has_long_repeat p then 15 else 0) +
  (if has_sequence p then 20 else 0) +
  (if charset_size p ≤ 26 then 10 else 0)

/-- The ordered penalty reasons exactly as claim C2 states them. -/
def spec_reasons (p : List Char) : List String :=
  (if isCommon p then ["Very common password"] else []) ++
  (if p.length < 8 then ["Too short (recommend >= 12 chars)"] else []) ++
  (if has_long_repeat p then ["Long repeated characters"] else []) ++
  (if has_sequence p then ["Sequence detected (e.g., \x27abcd\x27 or \x271234\x27)"] else []) ++
  (if charset_size p ≤ 26 then ["Limited character variety"] else [])

/-- The score exactly as claim C2 states it:
clamp(round(base + classBonus + lengthBonus - penalty), 0, 100). -/
noncomputable def spec_score (p : List Char) : ℤ :=
  max 0 (min 100 (round (spec_base p + (spec_class_bonus p : ℝ) +
    (spec_length_bonus p : ℝ) - (spec_penalty p : ℝ))))

/-- C2: the returned score equals the claim's closed-form formula, and the
triggered penalties record their documented reason strings in order. -/
theorem C2_score_formula (p : List Char) :
    (assess_password p).score = spec_score p ∧
    (assess_password p).details.reasons_for_penalty = spec_reasons p := by
  refine ⟨?_, rfl⟩
  show score_val p = spec_score p
  unfold score_val spec_score
  have hcb : ((class_bonus p : ℤ) : ℝ) = ((spec_class_bonus p : ℤ) : ℝ) := by
    unfold class_bonus spec_class_bonus
    rw [max_comm]
  have hlb : ((length_bonus p.length : ℕ) : ℝ) = ((spec_length_bonus p : ℤ) : ℝ) := by
    unfold length_bonus spec_length_bonus
    split_ifs <;> norm_num
  have hpen : ((penalty p : ℕ) : ℝ) = ((spec_penalty p : ℤ) : ℝ) := by
    unfold penalty spec_penalty
    split_ifs with h1 h2 h3 h4 h5 <;> push_cast <;>
      (try rw [Nat.cast_sub (le_of_lt (by assumption : p.length < 8))]) <;>
      push_cast <;> ring
  rw [show base_score p = spec_base p from rfl, hcb, hlb, hpen]

/-- Any-search over a list succeeds on an extension on the right. -/
theorem any_append_left (g : Char → Bool) (p t : List Char)
    (h : p.any g = true) : (p ++ t).any g = true := by
  rw [List.any_append, h, Bool.true_or]

/-- Comparing two guarded constants when the first guard implies the second. -/
theorem ite_le_ite_of_imp {b1 b2 : Bool} (k : ℕ) (h : b1 = true → b2 = true) :
    (if b1 = true then k else 0) ≤ (if b2 = true then k else 0) := by
  cases b1 with
  | false => simp
  | true => rw [if_pos rfl, if_pos (h rfl)]

/-- The estimated alphabet size never shrinks when characters are appended. -/
theorem charset_size_mono (p t : List Char) :
    charset_size p ≤ charset_size (p ++ t) := by
  unfold charset_size
  refine max_le_max ?_ le_rfl
  refine add_le_add (add_le_add (add_le_add ?_ ?_) ?_) ?_
  · exact ite_le_ite_of_imp 26 (fun h => any_append_left isLowerChar p t h)
  · exact ite_le_ite_of_imp 26 (fun h => any_append_left isUpperChar p t h)
  · exact ite_le_ite_of_imp 10 (fun h => any_append_left isDigitChar p t h)
  · exact ite_le_ite_of_imp 32 (fun h => any_append_left isSymbolChar p t h)

/-- The class count never shrinks when characters are appended. -/
theorem classes_mono (p t : List Char) : classes p ≤ classes (p ++ t) := by
  unfold classes
  refine add_le_add (add_le_add (add_le_add ?_ ?_) ?_) ?_
  · exact ite_le_ite_of_imp 1 (fun h => any_append_left isLowerChar p t h)
  · exact ite_le_ite_of_imp 1 (fun h => any_append_left isUpperChar p t h)
  · exact ite_le_ite_of_imp 1 (fun h => any_append_left isDigitChar p t h)
  · exact ite_le_ite_of_imp 1 (fun h => any_append_left isSymbolChar p t h)

/-- The entropy estimate is never negative. -/
theorem entropy_bits_nonneg (p : List Char) : 0 ≤ entropy_bits p := by
  unfold entropy_bits
  split_ifs with h
  · apply mul_nonneg (Nat.cast_nonneg _)
    apply Real.logb_nonneg (by norm_num : (1:ℝ) < 2)
    exact_mod_cast h.le
  · exact le_refl 0

/-- The entropy estimate never shrinks when characters are appended. -/
theorem entropy_bits_mono (p t : List Char) :
    entropy_bits p ≤ entropy_bits (p ++ t) := by
  have hcs := charset_size_mono p t
  unfold entropy_bits
  split_ifs with h1 h2 h3
  · apply mul_le_mul
    · exact_mod_cast Nat.cast_le.2 (by simp : p.length ≤ (p ++ t).length)
    · apply Real.logb_le_logb_of_le (by norm_num : (1:ℝ) < 2)
      · exact_mod_cast (show (0:ℕ) < charset_size p by omega)
      · exact_mod_cast hcs
    · apply Real.logb_nonneg (by norm_num : (1:ℝ) < 2)
      exact_mod_cast h1.le
    · exact Nat.cast_nonneg _
  · exact absurd (lt_of_lt_of_le h1 hcs) h2
  · apply mul_nonneg (Nat.cast_nonneg _)
    apply Real.logb_nonneg (by norm_num : (1:ℝ) < 2)
    exact_mod_cast h3.le
  · exact le_refl 0

/-- The base score as a two-sided clamp of the entropy. -/
theorem base_score_eq (p : List Char) :
    base_score p = min 60 (max (entropy_bits p) 0) := by
  unfold base_score
  split_ifs with h
  · rw [div_mul_cancel₀ _ (by norm_num : (60:ℝ) ≠ 0), max_eq_left h.le]
  · push_neg at h
    rw [max_eq_right h, min_eq_right (by norm_num : (0:ℝ) ≤ 60)]

/-- The base score never shrinks when characters are appended. -/
theorem base_score_mono (p t : List Char) :
    base_score p ≤ base_score (p ++ t) := by
  rw [base_score_eq, base_score_eq]
  exact min_le_min le_rfl (max_le_max (entropy_bits_mono p t) le_rfl)

/-- The class bonus never shrinks when characters are appended. -/
theorem class_bonus_mono (p t : List Char) :
    class_bonus p ≤ class_bonus (p ++ t) := by
  unfold class_bonus
  have hc : ((classes p : ℤ)) ≤ (classes (p ++ t) : ℤ) := by
    exact_mod_cast classes_mono p t
  exact max_le_max (by linarith) le_rfl

/-- The length bonus ladder is monotone in the length. -/
theorem length_bonus_mono {L1 L2 : ℕ} (h : L1 ≤ L2) :
    length_bonus L1 ≤ length_bonus L2 := by
  unfold length_bonus
  split_ifs <;> omega

/-- Appending characters that introduce no new repeat, sequence, or
common-password hit never increases the total penalty. -/
theorem penalty_anti (p t : List Char)
    (hr : has_long_repeat (p ++ t) = true → has_long_repeat p = true)
    (hs : has_sequence (p ++ t) = true → has_sequence p = true)
    (hc : isCommon (p ++ t) = true → isCommon p = true) :
    penalty (p ++ t) ≤ penalty p := by
  unfold penalty
  have hrep : has_long_repeat (p ++ t) = has_long_repeat p := by
    cases hv : has_long_repeat (p ++ t) with
    | true => exact (hr hv).symm
    | false =>
        cases hv2 : has_long_repeat p with
        | true => rw [has_long_repeat_append t hv2] at hv; exact hv.symm
        | false => rfl
  have hseq : has_sequence (p ++ t) = has_sequence p := by
    cases hv : has_sequence (p ++ t) with
    | true => exact (hs hv).symm
    | false =>
        cases hv2 : has_sequence p with
        | true => rw [has_sequence_append t hv2] at hv; exact hv.symm
        | false => rfl
  have hcom : (if isCommon (p ++ t) then 40 else 0) ≤
      (if isCommon p then (40:ℕ) else 0) := by
    by_cases hv : isCommon (p ++ t) = true
    · simp [hv, hc hv]
    · rw [Bool.not_eq_true] at hv
      simp [hv]
  have hshort : (if (p ++ t).length < 8 then (8 - (p ++ t).length) * 3 else 0) ≤
      (if p.length < 8 then (8 - p.length) * 3 else 0) := by
    have hlen : p.length ≤ (p ++ t).length := by simp
    split_ifs <;> omega
  have hvar : (if charset_size (p ++ t) ≤ 26 then 10 else 0) ≤
      (if charset_size p ≤ 26 then (10:ℕ) else 0) := by
    have := charset_size_mono p t
    split_ifs <;> omega
  rw [hrep, hseq]
  exact add_le_add (add_le_add (add_le_add (add_le_add hcom hshort) le_rfl) le_rfl) hvar

/-- C9: appending characters that introduce no new repeat, sequence, or
common-password pattern never lowers the score: the length and class bonuses
and the entropy growth only help, and only new patterns could reduce it. -/
theorem C9_append_monotonic (p t : List Char)
    (hr : has_long_repeat (p ++ t) = true → has_long_repeat p = true)
    (hs : has_sequence (p ++ t) = true → has_sequence p = true)
    (hc : isCommon (p ++ t) = true → isCommon p = true) :
    (assess_password p).score ≤ (assess_password (p ++ t)).score := by
  show score_val p ≤ score_val (p ++ t)
  unfold score_val
  have hb := base_score_mono p t
  have hcb : ((class_bonus p : ℤ) : ℝ) ≤ ((class_bonus (p ++ t) : ℤ) : ℝ) := by
    exact_mod_cast class_bonus_mono p t
  have hlb : ((length_bonus p.length : ℕ) : ℝ) ≤
      ((length_bonus ((p ++ t).length) : ℕ) : ℝ) := by
    exact_mod_cast length_bonus_mono (by simp : p.length ≤ (p ++ t).length)
  have hpen : ((penalty (p ++ t) : ℕ) : ℝ) ≤ ((penalty p : ℕ) : ℝ) := by
    exact_mod_cast penalty_anti p t hr hs hc
  have hround : round (base_score p + (class_bonus p : ℝ) +
      (length_bonus p.length : ℝ) - (penalty p : ℝ)) ≤
      round (base_score (p ++ t) + (class_bonus (p ++ t) : ℝ) +
        (length_bonus ((p ++ t).length) : ℝ) - (penalty (p ++ t) : ℝ)) := by
    rw [round_eq, round_eq]
    apply Int.floor_mono
    linarith
  exact max_le_max le_rfl (min_le_min le_rfl hround)

/-- Witness for C9: extending "axbyc" with "1D!" adds length and classes and
introduces no repeat, sequence, or common-password pattern. -/
theorem C9_append_monotonic_witness :
    (has_long_repeat ("axbyc".toList ++ "1D!".toList) = true →
      has_long_repeat "axbyc".toList = true) ∧
    (has_sequence ("axbyc".toList ++ "1D!".toList) = true →
      has_sequence "axbyc".toList = true) ∧
    (isCommon ("axbyc".toList ++ "1D!".toList) = true →
      isCommon "axbyc".toList = true) ∧
    (assess_password "axbyc".toList).score ≤
      (assess_password ("axbyc".toList ++ "1D!".toList)).score :=
  ⟨by decide, by decide, by decide,
   C9_append_monotonic "axbyc".toList "1D!".toList (by decide) (by decide) (by decide)⟩

end PasswordStrength
